import Mathlib

/-!
Verification of the event-based finite state machine engine (package `fsm`).

The development shallowly embeds the Go source: `Event` and `State` are
strings, the transition table is a list, Go maps of per-state callbacks are
modelled by the set (list) of registered states, a `nil`-able Go function
field is modelled by a `Bool` registration flag, and `panic` is modelled by
an `Option`/`Except` failure value.  A transition action receives the
current state and the payload and is modelled by its observable effect on
the machine: whether it calls `SetEvent` (the chaining primitive) and the
`transition` flag it returns.  Callback invocations are recorded in an
explicit trace so that ordering claims are statable.  The unbounded
`for` loop of `SendEvent` is modelled with explicit fuel: a `none` result
means the loop has not finished within `fuel` iterations.
-/

set_option autoImplicit false

namespace Fsm

/-- Go: `type Event string`. -/
abbrev Event := String

/-- Go: `type State string`. -/
abbrev State := String

/-- Observable effect of one call of a transition action: the last
`SetEvent(event, data)` call it performed, if any, and the `transition`
boolean it returns. -/
structure ActionEffect (D : Type) where
  chain : Option (Event × Option D)
  transition : Bool

/-- A transition action, modelled as a function of the machine's current
state and the payload (Go: `type Action func(fsm *FSM, data interface\x7b\x7d) bool`,
whose sanctioned effect on the machine is calling the chaining primitive
`SetEvent`). -/
abbrev Action (D : Type) := State → Option D → ActionEffect D

/-- Go: `type TransitionError struct` with fields `Event`, `Source`, `Target`.
If `Source` is empty the error represents "no transition"; otherwise it
represents a transition suspended by the action. -/
structure TransitionError where
  Event : Event
  Source : State
  Target : State
  deriving DecidableEq, Repr

/-- Go method: `func (e TransitionError) IsSuspended() bool \x7b return len(e.Source) > 0 \x7d`. -/
def TransitionError.IsSuspended (e : TransitionError) : Bool :=
  decide (0 < e.Source.length)

/-- Go method: `func (e TransitionError) IsNoTransition() bool \x7b return len(e.Source) > 0 \x7d`.
Note: the source really returns `len(e.Source) > 0` here, exactly as in
`IsSuspended`. -/
def TransitionError.IsNoTransition (e : TransitionError) : Bool :=
  decide (0 < e.Source.length)

/-- The package-level `IsSuspended(err error) bool`.  In this embedding every
error produced by the engine is a `TransitionError`, and `nil` is `none`. -/
def IsSuspended (err : Option TransitionError) : Bool :=
  match err with
  | some te => te.IsSuspended
  | none => false

/-- The package-level `IsNoTransition(err error) bool`. -/
def IsNoTransition (err : Option TransitionError) : Bool :=
  match err with
  | some te => te.IsNoTransition
  | none => false

/-- Go: `type Transition struct` with fields `Event`, `Source`, `Target`,
`Action` (a nil-able function, hence `Option`). -/
structure Transition (D : Type) where
  Event : Event
  Source : State
  Target : State
  Action : Option (Action D)

/-- Go: `NewTransition(source, target, event, action)`. -/
def NewTransition {D : Type} (source target : State) (event : Event)
    (action : Option (Action D)) : Transition D :=
  { Event := event, Source := source, Target := target, Action := action }

/-- Trace entry for one observable step of a dispatch: a per-state exit
callback, the global exit callback, the mutation of the current state, a
per-state enter callback, the global enter callback, or the global
transition callback. -/
inductive CbCall where
  | exitState : State → CbCall
  | exitGlobal : State → CbCall
  | setCur : State → CbCall
  | enterState : State → CbCall
  | enterGlobal : State → CbCall
  | transitionCall : State → State → CbCall
  deriving DecidableEq, Repr

/-- The machine (Go: `type FSM struct`).  The three nil-able global callback
function fields are modelled by registration flags; the two per-state
callback maps by the lists of registered states; `data interface\x7b\x7d` by
`Option D`. -/
structure FSM (D : Type) where
  exit : Bool
  enter : Bool
  transition : Bool
  exitStates : List State
  enterStates : List State
  transitions : List (Transition D)
  current : State
  event : Event
  data : Option D

variable {D : Type}

/-- Go: `New()` — a machine with empty maps and zero-valued fields. -/
def New : FSM D :=
  { exit := false, enter := false, transition := false,
    exitStates := [], enterStates := [], transitions := [],
    current := "", event := "", data := none }

/-- Go: `Reset()` — clears both per-state callback maps and replaces every
other field by its zero value. -/
def FSM.Reset (_f : FSM D) : FSM D :=
  { exit := false, enter := false, transition := false,
    exitStates := [], enterStates := [], transitions := [],
    current := "", event := "", data := none }

/-- Go: `SetCurrent(current)` — panics (`none`) when the state is empty. -/
def FSM.SetCurrent (f : FSM D) (current : State) : Option (FSM D) :=
  if current == "" then none
  else some { f with current := current }

/-- Go: `Current()`. -/
def FSM.Current (f : FSM D) : State := f.current

/-- Go: `SetEvent(event, data)` — records the chained event and payload. -/
def FSM.SetEvent (f : FSM D) (event : Event) (data : Option D) : FSM D :=
  { f with event := event, data := data }

/-- Go: `Transitions()`. -/
def FSM.Transitions (f : FSM D) : List (Transition D) := f.transitions

/-- Go registration `OnEnter(fn)`: the flag records whether `fn` is non-nil. -/
def FSM.OnEnter (f : FSM D) (registered : Bool) : FSM D :=
  { f with enter := registered }

/-- Go registration `OnExit(fn)`. -/
def FSM.OnExit (f : FSM D) (registered : Bool) : FSM D :=
  { f with exit := registered }

/-- Go registration `OnTransition(fn)`. -/
def FSM.OnTransition (f : FSM D) (registered : Bool) : FSM D :=
  { f with transition := registered }

/-- Go registration `OnEnterState(state, fn)`: the map key set gains `state`. -/
def FSM.OnEnterState (f : FSM D) (s : State) : FSM D :=
  if f.enterStates.contains s then f
  else { f with enterStates := f.enterStates ++ [s] }

/-- Go registration `OnExitState(state, fn)`. -/
def FSM.OnExitState (f : FSM D) (s : State) : FSM D :=
  if f.exitStates.contains s then f
  else { f with exitStates := f.exitStates ++ [s] }

/-- Index of the first transition matching `(source, event)`, as in the Go
loop of `indexTransition`; Go encodes "not found" as `-1`, here `none`. -/
def indexTransitionList : List (Transition D) → State → Event → Option Nat
  | [], _, _ => none
  | t :: ts, s, e =>
    if t.Source == s && t.Event == e then some 0
    else (indexTransitionList ts s e).map (fun i => i + 1)

/-- Go: `indexTransition(source, event)`. -/
def FSM.indexTransition (f : FSM D) (source : State) (event : Event) : Option Nat :=
  indexTransitionList f.transitions source event

/-- Go: `GetTransition(source, event) (Transition, bool)`. -/
def FSM.GetTransition (f : FSM D) (source : State) (event : Event) :
    Option (Transition D) :=
  match f.indexTransition source event with
  | some i => f.transitions.get? i
  | none => none

/-- Go: `TestEvent(event)` — `f.indexTransition(f.Current(), event) > -1`. -/
def FSM.TestEvent (f : FSM D) (event : Event) : Bool :=
  (f.indexTransition f.Current event).isSome

/-- The validity check of `AddTransitions`: `true` iff the whole argument
list passes the first loop (no empty source, target or event). -/
def validTransitionB (t : Transition D) : Bool :=
  !(t.Source == "" || t.Target == "" || t.Event == "")

/-- The first loop of `AddTransitions`: panic on the first invalid entry. -/
def validateTransitions : List (Transition D) → Bool
  | [] => true
  | t :: ts => if validTransitionB t then validateTransitions ts else false

/-- One step of the second loop of `AddTransitions`: replace the existing
transition with the same `(source, event)` in place, else append. -/
def FSM.addTransition1 (f : FSM D) (t : Transition D) : FSM D :=
  match f.indexTransition t.Source t.Event with
  | some i => { f with transitions := f.transitions.set i t }
  | none => { f with transitions := f.transitions ++ [t] }

/-- Go: `AddTransitions(transitions...)` — validates the whole list first,
panicking (`Except.error` with the machine state at the panic) before any
insertion; then inserts left to right with replace-or-append semantics. -/
def FSM.AddTransitions (f : FSM D) (ts : List (Transition D)) :
    Except (FSM D) (FSM D) :=
  if validateTransitions ts then Except.ok (ts.foldl FSM.addTransition1 f)
  else Except.error f

/-- First transition matching `(source, event)`, as scanned by the loop in
the Go `sendEvent`. -/
def findMatch : List (Transition D) → State → Event → Option (Transition D)
  | [], _, _ => none
  | t :: ts, s, e =>
    if t.Source == s && t.Event == e then some t else findMatch ts s e

/-- The callback-and-mutation tail of a committed transition in `sendEvent`:
per-state exit, global exit, `SetCurrent(target)` (which may panic on an
empty target), per-state enter, global enter, global transition. -/
def FSM.doTransition (f1 : FSM D) (current : State) (t : Transition D) :
    Option (FSM D × List CbCall × Option TransitionError) :=
  let tr1 :=
    (if f1.exitStates.contains current then [CbCall.exitState current] else []) ++
    (if f1.exit then [CbCall.exitGlobal current] else [])
  match f1.SetCurrent t.Target with
  | none => none
  | some f2 =>
    let tr2 :=
      CbCall.setCur t.Target ::
      ((if f2.enterStates.contains t.Target then [CbCall.enterState t.Target] else []) ++
       (if f2.enter then [CbCall.enterGlobal t.Target] else []) ++
       (if f2.transition then [CbCall.transitionCall current t.Target] else []))
    some (f2, tr1 ++ tr2, none)

/-- Go: `sendEvent(event, data)` — one dispatch step.  Returns the updated
machine, the trace of callback invocations, and the error (`none` on
success); the outer `none` is a panic (empty target in `SetCurrent`). -/
def FSM.sendEvent (f : FSM D) (event : Event) (data : Option D) :
    Option (FSM D × List CbCall × Option TransitionError) :=
  let current := f.Current
  match findMatch f.transitions current event with
  | none => some (f, [], some { Event := event, Source := "", Target := "" })
  | some t =>
    match t.Action with
    | none => f.doTransition current t
    | some act =>
      let eff := act current data
      let f1 :=
        match eff.chain with
        | none => f
        | some p => f.SetEvent p.1 p.2
      if eff.transition then f1.doTransition current t
      else some (f1, [], some { Event := event, Source := t.Source, Target := t.Target })

/-- The outcome of a full `SendEvent` call: a Go panic, or a normal return
with the final machine, the concatenated callback trace of all chain
iterations, and the error value of the last iteration. -/
inductive RunResult (D : Type) where
  | panic : RunResult D
  | done : FSM D → List CbCall → Option TransitionError → RunResult D

/-- Prefix the trace of an outcome with the trace of an earlier iteration. -/
def RunResult.prependTrace (tr : List CbCall) : RunResult D → RunResult D
  | RunResult.panic => RunResult.panic
  | RunResult.done f tr2 err => RunResult.done f (tr ++ tr2) err

/-- The `for` loop of Go's `SendEvent`, with explicit fuel (`none` when the
fuel runs out before the loop exits).  Each iteration first clears the
chained-event slot (`f.SetEvent("", nil)`), dispatches once, and the loop
exits when no chained event is pending or the iteration produced a
non-suspended error; otherwise it continues with the chained event. -/
def FSM.SendEventLoop : Nat → FSM D → Event → Option D → Option (RunResult D)
  | 0, _, _, _ => none
  | n + 1, f, event, data =>
    let f0 := f.SetEvent "" none
    match f0.sendEvent event data with
    | none => some RunResult.panic
    | some (f1, tr, err) =>
      if f1.event == "" || (err.isSome && !(IsSuspended err)) then
        some (RunResult.done f1 tr err)
      else
        (FSM.SendEventLoop n f1 f1.event f1.data).map (RunResult.prependTrace tr)

/-- Go: `SendEvent(event, data)` — panics on an empty event, else runs the
chain loop. -/
def FSM.SendEvent (f : FSM D) (fuel : Nat) (event : Event) (data : Option D) :
    Option (RunResult D) :=
  if event == "" then some RunResult.panic
  else FSM.SendEventLoop fuel f event data

/-- The list-level content of `addTransition1`. -/
def listAddTransition (l : List (Transition D)) (t : Transition D) :
    List (Transition D) :=
  match indexTransitionList l t.Source t.Event with
  | some i => l.set i t
  | none => l ++ [t]

/-- Replace the first entry with the same `(source, event)` key in place,
else append — the recursive characterisation of `addTransition1`. -/
def insertT : List (Transition D) → Transition D → List (Transition D)
  | [], t => [t]
  | u :: us, t =>
    if u.Source == t.Source && u.Event == t.Event then t :: us
    else u :: insertT us t

/-- True iff no two entries of the table share a `(source, event)` key. -/
def keysUniqueB : List (Transition D) → Bool
  | [] => true
  | t :: ts =>
    ts.all (fun u => !(u.Source == t.Source && u.Event == t.Event)) && keysUniqueB ts

/-- Number of table entries whose `(source, event)` key is `(s, e)`. -/
def countMatch (l : List (Transition D)) (s : State) (e : Event) : Nat :=
  (l.filter (fun t => t.Source == s && t.Event == e)).length

/-- A transition with its action dropped (used to state that an operation
is insensitive to the actions stored in the table). -/
def Transition.eraseAction (t : Transition D) : Transition D :=
  { t with Action := none }

/-- A table-building operation: one `AddTransitions` call or one `Reset`. -/
inductive Op (D : Type) where
  | add : List (Transition D) → Op D
  | reset : Op D

/-- Apply one operation; a panicking `AddTransitions` leaves the machine as
the panic observed it. -/
def FSM.applyOp (f : FSM D) : Op D → FSM D
  | Op.add ts =>
    match f.AddTransitions ts with
    | Except.ok g => g
    | Except.error g => g
  | Op.reset => f.Reset

/-- Run a sequence of table-building operations. -/
def FSM.runOps (f : FSM D) (ops : List (Op D)) : FSM D :=
  ops.foldl FSM.applyOp f

/-- An action that vetoes the transition and does not chain. -/
def falseAct : Action Unit := fun _ _ => { chain := none, transition := false }

/-- An action that proceeds and chains event `Bar`. -/
def chainBarAct : Action Unit := fun _ _ =>
  { chain := some ("Bar", none), transition := true }

/-- An action that proceeds and always re-chains event `e`. -/
def selfChainAct : Action Unit := fun _ _ =>
  { chain := some ("e", none), transition := true }

/-- A machine whose only transition is guarded by an always-vetoing action. -/
def suspFSM : FSM Unit :=
  { New with
    transitions := [{ Event := "go", Source := "A", Target := "B", Action := some falseAct }],
    current := "A" }

/-- A machine with every kind of callback registered and one plain transition. -/
def cbFSM : FSM Unit :=
  { exit := true, enter := true, transition := true,
    exitStates := ["A"], enterStates := ["B"],
    transitions := [{ Event := "go", Source := "A", Target := "B", Action := none }],
    current := "A", event := "", data := none }

/-- The chaining scenario: `Bar --Foo--> Foo` whose action chains `Bar`,
and `Foo --Bar--> Bar`. -/
def chainFSM : FSM Unit :=
  { New with
    transitions :=
      [{ Event := "Foo", Source := "Bar", Target := "Foo", Action := some chainBarAct },
       { Event := "Bar", Source := "Foo", Target := "Bar", Action := none }],
    current := "Bar" }

/-- The machine `chainFSM` right after its first chain iteration: in state `Foo` with
chained event `Bar` pending. -/
def chainFSM2 : FSM Unit :=
  { chainFSM with current := "Foo", event := "Bar" }

/-- A machine with a self-loop whose action always re-chains the same event:
the dispatch loop of `SendEvent` never exits on it. -/
def loopFSM : FSM Unit :=
  { New with
    transitions := [{ Event := "e", Source := "A", Target := "A", Action := some selfChainAct }],
    current := "A" }

/-- An action-free transition used by the no-chaining machines. -/
def trNC : Transition Unit :=
  { Event := "go", Source := "A", Target := "B", Action := none }

/-- A machine none of whose actions ever chains an event. -/
def noChainFSM : FSM Unit :=
  { New with transitions := [trNC], current := "A" }

/-- A well-formed transition used as witness input. -/
def t1W : Transition Unit :=
  { Event := "go", Source := "A", Target := "B", Action := none }

/-- A second well-formed transition with the same `(source, event)` key as
`t1W` but a different target. -/
def t2W : Transition Unit :=
  { Event := "go", Source := "A", Target := "C", Action := none }

/-- A transition with an empty event, rejected by `AddTransitions`. -/
def badT : Transition Unit :=
  { Event := "", Source := "A", Target := "B", Action := none }

/-! ## Basic lemmas about the table lookups -/

theorem isSomeMapAux {α β : Type} (g : α → β) (o : Option α) :
    (o.map g).isSome = o.isSome := by
  cases o <;> rfl

theorem indexTransitionList_isSome (l : List (Transition D)) (s : State) (e : Event) :
    (indexTransitionList l s e).isSome = true ↔
      ∃ t ∈ l, t.Source = s ∧ t.Event = e := by
  induction l with
  | nil => simp [indexTransitionList]
  | cons u us ih =>
    by_cases h : (u.Source == s && u.Event == e) = true
    · simp only [Bool.and_eq_true, beq_iff_eq] at h
      simp [indexTransitionList, h]
    · have h' : ¬(u.Source = s ∧ u.Event = e) := by
        simpa [Bool.and_eq_true, beq_iff_eq] using h
      simp only [indexTransitionList, if_neg h, isSomeMapAux]
      rw [ih]
      constructor
      · rintro ⟨t, ht, hts⟩
        exact ⟨t, List.mem_cons_of_mem _ ht, hts⟩
      · rintro ⟨t, ht, hts⟩
        rcases List.mem_cons.mp ht with rfl | ht'
        · exact absurd hts h'
        · exact ⟨t, ht', hts⟩

theorem findMatch_eq_none_of_all (l : List (Transition D)) (s : State) (e : Event)
    (h : l.all (fun t => !(t.Source == s && t.Event == e)) = true) :
    findMatch l s e = none := by
  induction l with
  | nil => rfl
  | cons u us ih =>
    simp only [List.all_cons, Bool.and_eq_true, Bool.not_eq_true'] at h
    simpa [findMatch, h.1] using ih h.2

theorem findMatch_mem (l : List (Transition D)) (s : State) (e : Event)
    (t : Transition D) (h : findMatch l s e = some t) :
    t ∈ l ∧ t.Source = s ∧ t.Event = e := by
  induction l with
  | nil => cases h
  | cons u us ih =>
    by_cases hu : (u.Source == s && u.Event == e) = true
    · simp only [findMatch, if_pos hu] at h
      cases h
      simp only [Bool.and_eq_true, beq_iff_eq] at hu
      exact ⟨List.mem_cons_self _ _, hu⟩
    · simp only [findMatch, if_neg hu] at h
      rcases ih h with ⟨hm, hk⟩
      exact ⟨List.mem_cons_of_mem _ hm, hk⟩

theorem addTransition1_eq (f : FSM D) (t : Transition D) :
    f.addTransition1 t = { f with transitions := listAddTransition f.transitions t } := by
  unfold FSM.addTransition1 listAddTransition FSM.indexTransition
  cases indexTransitionList f.transitions t.Source t.Event <;> rfl

theorem listAddTransition_eq_insertT (l : List (Transition D)) (t : Transition D) :
    listAddTransition l t = insertT l t := by
  induction l with
  | nil => rfl
  | cons u us ih =>
    by_cases hu : (u.Source == t.Source && u.Event == t.Event) = true
    · simp [listAddTransition, indexTransitionList, insertT, hu]
    · unfold listAddTransition indexTransitionList insertT
      rw [if_neg hu, if_neg hu]
      unfold listAddTransition at ih
      cases h : indexTransitionList us t.Source t.Event with
      | none => rw [h] at ih; simpa [h] using congrArg (List.cons u) ih
      | some i => rw [h] at ih; simpa [h] using congrArg (List.cons u) ih

theorem mem_insertT (l : List (Transition D)) (t v : Transition D)
    (h : v ∈ insertT l t) : v = t ∨ v ∈ l := by
  induction l with
  | nil => simpa [insertT] using h
  | cons u us ih =>
    by_cases hu : (u.Source == t.Source && u.Event == t.Event) = true
    · simp only [insertT, if_pos hu, List.mem_cons] at h
      rcases h with rfl | h
      · exact Or.inl rfl
      · exact Or.inr (List.mem_cons_of_mem _ h)
    · simp only [insertT, if_neg hu, List.mem_cons] at h
      rcases h with rfl | h
      · exact Or.inr (List.mem_cons_self _ _)
      · rcases ih h with h' | h'
        · exact Or.inl h'
        · exact Or.inr (List.mem_cons_of_mem _ h')

theorem self_mem_insertT (l : List (Transition D)) (t : Transition D) :
    t ∈ insertT l t := by
  induction l with
  | nil => simp [insertT]
  | cons u us ih =>
    by_cases hu : (u.Source == t.Source && u.Event == t.Event) = true
    · simp [insertT, hu]
    · simp only [insertT, if_neg hu]
      exact List.mem_cons_of_mem _ ih

theorem keysUniqueB_insertT (l : List (Transition D)) (t : Transition D)
    (h : keysUniqueB l = true) : keysUniqueB (insertT l t) = true := by
  induction l with
  | nil => rfl
  | cons u us ih =>
    simp only [keysUniqueB, Bool.and_eq_true, List.all_eq_true] at h
    by_cases hu : (u.Source == t.Source && u.Event == t.Event) = true
    · have hu' : u.Source = t.Source ∧ u.Event = t.Event := by
        simpa [Bool.and_eq_true, beq_iff_eq] using hu
      have hstep : insertT (u :: us) t = t :: us := by
        simp [insertT, hu]
      rw [hstep]
      simp only [keysUniqueB, Bool.and_eq_true, List.all_eq_true]
      refine ⟨fun v hv => ?_, h.2⟩
      have hvu := h.1 v hv
      rw [← hu'.1, ← hu'.2]
      exact hvu
    · have hu' : ¬(u.Source = t.Source ∧ u.Event = t.Event) := by
        simpa [Bool.and_eq_true, beq_iff_eq] using hu
      have hstep : insertT (u :: us) t = u :: insertT us t := by
        simp [insertT, hu]
      rw [hstep]
      simp only [keysUniqueB, Bool.and_eq_true, List.all_eq_true]
      refine ⟨fun v hv => ?_, ih h.2⟩
      rcases mem_insertT us t v hv with hvt | hv'
      · cases hb : (v.Source == u.Source && v.Event == u.Event) with
        | false => simp [hb]
        | true =>
          simp only [Bool.and_eq_true, beq_iff_eq] at hb
          rw [hvt] at hb
          exact absurd ⟨hb.1.symm, hb.2.symm⟩ hu'
      · exact h.1 v hv'

theorem countMatch_eq_zero (l : List (Transition D)) (s : State) (e : Event)
    (h : l.all (fun t => !(t.Source == s && t.Event == e)) = true) :
    countMatch l s e = 0 := by
  simp only [List.all_eq_true, Bool.not_eq_true'] at h
  simp only [countMatch, List.length_eq_zero]
  exact List.filter_eq_nil_iff.mpr (fun t ht => by simp [h t ht])

theorem countMatch_le_one (l : List (Transition D)) (s : State) (e : Event)
    (h : keysUniqueB l = true) : countMatch l s e ≤ 1 := by
  induction l with
  | nil => simp [countMatch]
  | cons u us ih =>
    simp only [keysUniqueB, Bool.and_eq_true] at h
    by_cases hu : (u.Source == s && u.Event == e) = true
    · have hu' : u.Source = s ∧ u.Event = e := by
        simpa [Bool.and_eq_true, beq_iff_eq] using hu
      have h0 : countMatch us s e = 0 := by
        apply countMatch_eq_zero
        rw [← hu'.1, ← hu'.2]
        exact h.1
      simp only [countMatch] at h0 ⊢
      rw [@List.filter_cons_of_pos _ (fun t => t.Source == s && t.Event == e) u us hu,
        List.length_cons]
      omega
    · simp only [countMatch] at ih ⊢
      rw [@List.filter_cons_of_neg _ (fun t => t.Source == s && t.Event == e) u us hu]
      exact ih h.2

theorem countMatch_pos (l : List (Transition D)) (s : State) (e : Event)
    (t : Transition D) (ht : t ∈ l) (hk : (t.Source == s && t.Event == e) = true) :
    1 ≤ countMatch l s e := by
  have : t ∈ l.filter (fun v => v.Source == s && v.Event == e) :=
    List.mem_filter.mpr ⟨ht, hk⟩
  have hne : l.filter (fun v => v.Source == s && v.Event == e) ≠ [] :=
    List.ne_nil_of_mem this
  simpa [countMatch, Nat.succ_le_iff, List.length_pos] using hne

/-! ## C1: the error-kind predicates -/

/-- C1: the spec says `IsNoTransition` must be true exactly when the error's
`Source` field is empty (the no-transition kind), and the two predicates are
never both true.  The code instead returns `len(e.Source) > 0` in
`IsNoTransition`, identical to `IsSuspended` and contradicting the method's
own doc comment: on the no-transition error it returns `false`, and on a
suspended error both predicates return `true`.  This theorem evaluates the
embedded code at those inputs, exhibiting the divergence. -/
theorem transitionError_isNoTransition_code_divergence :
    TransitionError.IsNoTransition { Event := "e", Source := "", Target := "" } = false ∧
    TransitionError.IsNoTransition { Event := "e", Source := "A", Target := "B" } = true ∧
    TransitionError.IsSuspended { Event := "e", Source := "A", Target := "B" } = true ∧
    IsNoTransition (some { Event := "e", Source := "", Target := "" }) = false ∧
    IsSuspended (some { Event := "e", Source := "A", Target := "B" }) = true := by
  refine ⟨rfl, rfl, rfl, rfl, rfl⟩

/-! ## C10: atomicity of the AddTransitions precondition check -/

theorem validateTransitions_eq_false (ts : List (Transition D))
    (h : ∃ t ∈ ts, validTransitionB t = false) :
    validateTransitions ts = false := by
  induction ts with
  | nil => simp at h
  | cons u us ih =>
    rcases h with ⟨t, ht, hbad⟩
    cases hv : validTransitionB u with
    | false => simp [validateTransitions, hv]
    | true =>
      rcases List.mem_cons.mp ht with heq | ht'
      · rw [heq] at hbad
        rw [hv] at hbad
        cases hbad
      · simp [validateTransitions, hv, ih ⟨t, ht', hbad⟩]

/-- C10: if any transition in the argument list has an empty source, target
or event, `AddTransitions` panics and the machine — in particular its
transition table — is exactly as it was before the call, even when valid
transitions precede the invalid one: the whole list is validated before any
insertion. -/
theorem addTransitions_panic_leaves_table (f : FSM D) (ts : List (Transition D))
    (h : ∃ t ∈ ts, validTransitionB t = false) :
    f.AddTransitions ts = Except.error f := by
  simp [FSM.AddTransitions, validateTransitions_eq_false ts h]

/-- Witness for C10: a valid transition followed by one with an empty event;
the call panics and returns the machine unchanged. -/
theorem addTransitions_panic_leaves_table_witness :
    FSM.AddTransitions (D := Unit) New [t1W, badT] = Except.error New :=
  addTransitions_panic_leaves_table New [t1W, badT]
    ⟨badT, List.Mem.tail _ (List.Mem.head _), rfl⟩

/-! ## C3: the table-uniqueness invariant -/

theorem keysUniqueB_addTransition1 (f : FSM D) (t : Transition D)
    (h : keysUniqueB f.transitions = true) :
    keysUniqueB (f.addTransition1 t).transitions = true := by
  rw [addTransition1_eq, listAddTransition_eq_insertT]
  exact keysUniqueB_insertT f.transitions t h

theorem keysUniqueB_foldl_addTransition1 (ts : List (Transition D)) (f : FSM D)
    (h : keysUniqueB f.transitions = true) :
    keysUniqueB (ts.foldl FSM.addTransition1 f).transitions = true := by
  induction ts generalizing f with
  | nil => exact h
  | cons t ts ih => exact ih _ (keysUniqueB_addTransition1 f t h)

theorem keysUniqueB_applyOp (f : FSM D) (op : Op D)
    (h : keysUniqueB f.transitions = true) :
    keysUniqueB (f.applyOp op).transitions = true := by
  cases op with
  | reset => rfl
  | add ts =>
    simp only [FSM.applyOp, FSM.AddTransitions]
    cases hv : validateTransitions ts with
    | false => simpa using h
    | true => simpa using keysUniqueB_foldl_addTransition1 ts f h

theorem keysUniqueB_runOps (ops : List (Op D)) (f : FSM D)
    (h : keysUniqueB f.transitions = true) :
    keysUniqueB (f.runOps ops).transitions = true := by
  induction ops generalizing f with
  | nil => exact h
  | cons op ops ih => exact ih _ (keysUniqueB_applyOp f op h)

/-- C3: starting from a newly created machine, after any sequence of
`AddTransitions` calls (including panicking ones) and `Reset`s, the
transition table contains at most one transition for any given
`(source, event)` pair. -/
theorem table_uniqueness_invariant (D : Type) (ops : List (Op D))
    (s : State) (e : Event) :
    countMatch (FSM.runOps New ops).transitions s e ≤ 1 :=
  countMatch_le_one _ s e (keysUniqueB_runOps ops New rfl)

/-! ## C2: adding the same (source, event) twice replaces in place -/

theorem insertT_position (l : List (Transition D)) (t1 t2 : Transition D)
    (hs : t1.Source = t2.Source) (he : t1.Event = t2.Event) :
    ∃ i, (insertT l t1).get? i = some t1 ∧
      insertT (insertT l t1) t2 = (insertT l t1).set i t2 ∧
      (∀ j, j ≠ i → (insertT l t1).get? j = l.get? j) ∧
      (i < l.length ∨ (i = l.length ∧ insertT l t1 = l ++ [t1])) := by
  induction l with
  | nil =>
    refine ⟨0, rfl, ?_, ?_, Or.inr ⟨rfl, rfl⟩⟩
    · show insertT [t1] t2 = [t2]
      simp [insertT, hs, he]
    · intro j hj
      cases j with
      | zero => exact absurd rfl hj
      | succ j => rfl
  | cons u us ih =>
    by_cases hu : (u.Source == t1.Source && u.Event == t1.Event) = true
    · have hstep : insertT (u :: us) t1 = t1 :: us := by simp [insertT, hu]
      have ht12 : (t1.Source == t2.Source && t1.Event == t2.Event) = true := by
        simp [hs, he]
      refine ⟨0, ?_, ?_, ?_, Or.inl (by simp)⟩
      · rw [hstep]; rfl
      · rw [hstep]
        show insertT (t1 :: us) t2 = (t1 :: us).set 0 t2
        simp [insertT, ht12]
      · intro j hj
        rw [hstep]
        cases j with
        | zero => exact absurd rfl hj
        | succ j => rfl
    · have hstep : insertT (u :: us) t1 = u :: insertT us t1 := by simp [insertT, hu]
      rcases ih with ⟨i, hget, hins, hother, hpos⟩
      have hu2 : ¬(u.Source == t2.Source && u.Event == t2.Event) = true := by
        rw [← hs, ← he]; exact hu
      refine ⟨i + 1, ?_, ?_, ?_, ?_⟩
      · rw [hstep]; simpa using hget
      · have hstep2 : insertT (u :: insertT us t1) t2 = u :: insertT (insertT us t1) t2 := by
          simp [insertT, hu2]
        rw [hstep, hstep2, hins]
        rfl
      · intro j hj
        rw [hstep]
        cases j with
        | zero => rfl
        | succ j =>
          have hji : j ≠ i := fun hji => hj (by rw [hji])
          simpa using hother j hji
      · rcases hpos with hlt | ⟨hlen, happ⟩
        · exact Or.inl (by simpa using Nat.succ_lt_succ hlt)
        · refine Or.inr ⟨by simp [hlen], ?_⟩
          rw [hstep, happ]
          rfl

/-- C2: on a machine whose table satisfies the uniqueness invariant, adding
two valid transitions `t1`, `t2` with the same `(source, event)` pair in
sequence (either as two `AddTransitions` calls or one call with both)
leaves exactly one entry for that pair, carrying `t2`'s target and action,
at the position `t1` occupied, with every other entry unchanged at its
original position; `t1` itself went to the position of the pre-existing
entry for the pair, or was appended at the end. -/
theorem addTransitions_same_pair_replaces (f : FSM D) (t1 t2 : Transition D)
    (hU : keysUniqueB f.transitions = true)
    (hs : t1.Source = t2.Source) (he : t1.Event = t2.Event)
    (hv1 : validTransitionB t1 = true) (hv2 : validTransitionB t2 = true) :
    ∃ g fin i,
      f.AddTransitions [t1] = Except.ok g ∧
      g.AddTransitions [t2] = Except.ok fin ∧
      f.AddTransitions [t1, t2] = Except.ok fin ∧
      g.transitions.get? i = some t1 ∧
      fin.transitions = g.transitions.set i t2 ∧
      countMatch fin.transitions t2.Source t2.Event = 1 ∧
      (∀ j, j ≠ i → g.transitions.get? j = f.transitions.get? j) ∧
      (i < f.transitions.length ∨
        (i = f.transitions.length ∧ g.transitions = f.transitions ++ [t1])) := by
  have hgT : (f.addTransition1 t1).transitions = insertT f.transitions t1 := by
    rw [addTransition1_eq]
    exact listAddTransition_eq_insertT _ _
  have hfinT : ((f.addTransition1 t1).addTransition1 t2).transitions
      = insertT (insertT f.transitions t1) t2 := by
    rw [addTransition1_eq]
    show listAddTransition (f.addTransition1 t1).transitions t2
      = insertT (insertT f.transitions t1) t2
    rw [hgT, listAddTransition_eq_insertT]
  rcases insertT_position f.transitions t1 t2 hs he with ⟨i, hget, hins, hother, hpos⟩
  refine ⟨f.addTransition1 t1, (f.addTransition1 t1).addTransition1 t2, i,
    ?_, ?_, ?_, ?_, ?_, ?_, ?_, ?_⟩
  · simp [FSM.AddTransitions, validateTransitions, hv1]
  · simp [FSM.AddTransitions, validateTransitions, hv2]
  · simp [FSM.AddTransitions, validateTransitions, hv1, hv2]
  · rw [hgT]; exact hget
  · rw [hfinT, hgT, hins]
  · have hUfin : keysUniqueB (insertT (insertT f.transitions t1) t2) = true :=
      keysUniqueB_insertT _ _ (keysUniqueB_insertT _ _ hU)
    rw [hfinT]
    refine Nat.le_antisymm (countMatch_le_one _ _ _ hUfin) ?_
    exact countMatch_pos _ _ _ t2 (self_mem_insertT _ _) (by simp)
  · intro j hj
    rw [hgT]
    exact hother j hj
  · rw [hgT]
    exact hpos

/-- Witness for C2: starting from the freshly created machine, add `t1W`
and then `t2W`, which share the `(source, event)` pair `("A", "go")`. -/
theorem addTransitions_same_pair_replaces_witness :
    ∃ (g fin : FSM Unit) (i : Nat),
      FSM.AddTransitions New [t1W] = Except.ok g ∧
      g.AddTransitions [t2W] = Except.ok fin ∧
      FSM.AddTransitions New [t1W, t2W] = Except.ok fin ∧
      g.transitions.get? i = some t1W ∧
      fin.transitions = g.transitions.set i t2W ∧
      countMatch fin.transitions t2W.Source t2W.Event = 1 ∧
      (∀ j, j ≠ i → g.transitions.get? j = (New (D := Unit)).transitions.get? j) ∧
      (i < (New (D := Unit)).transitions.length ∨
        (i = (New (D := Unit)).transitions.length ∧
          g.transitions = (New (D := Unit)).transitions ++ [t1W])) :=
  addTransitions_same_pair_replaces New t1W t2W rfl rfl rfl rfl rfl

/-! ## C9: TestEvent is a pure query -/

theorem indexTransitionList_eraseAction (l : List (Transition D)) (s : State)
    (e : Event) :
    indexTransitionList (l.map Transition.eraseAction) s e
      = indexTransitionList l s e := by
  induction l with
  | nil => rfl
  | cons u us ih =>
    by_cases hu : (u.Source == s && u.Event == e) = true
    · simp [indexTransitionList, Transition.eraseAction, hu]
    · simp [indexTransitionList, Transition.eraseAction, hu, ih]

/-- C9: `TestEvent(event)` is true exactly when some transition of the table
has the current state as source and the given event, and its value does not
depend on the actions stored in the table (dropping every action leaves it
unchanged), so no action is ever evaluated.  In this embedding `TestEvent`
is a plain function returning only a `Bool`, which is the formal content of
"it leaves the entire machine state unchanged and invokes no callback". -/
theorem testEvent_pure_query (f : FSM D) (event : Event) :
    (f.TestEvent event = true ↔
      ∃ t ∈ f.transitions, t.Source = f.current ∧ t.Event = event) ∧
    FSM.TestEvent { f with transitions := f.transitions.map Transition.eraseAction } event
      = f.TestEvent event := by
  constructor
  · exact indexTransitionList_isSome f.transitions f.current event
  · show (indexTransitionList (f.transitions.map Transition.eraseAction) f.current event).isSome
      = (indexTransitionList f.transitions f.current event).isSome
    rw [indexTransitionList_eraseAction]

/-! ## Dispatch lemmas shared by the SendEvent claims -/

theorem beq_empty_eq_false (s : String) (h : s ≠ "") : (s == "") = false := by
  cases hb : (s == "") with
  | false => rfl
  | true => exact absurd (by simpa [beq_iff_eq] using hb) h

theorem sendEvent_no_match (f : FSM D) (event : Event) (data : Option D)
    (h : findMatch f.transitions f.current event = none) :
    f.sendEvent event data
      = some (f, [], some { Event := event, Source := "", Target := "" }) := by
  simp [FSM.sendEvent, FSM.Current, h]

theorem sendEvent_suspended (f : FSM D) (event : Event) (data : Option D)
    (t : Transition D) (act : Action D)
    (hm : findMatch f.transitions f.current event = some t)
    (ha : t.Action = some act)
    (heff : act f.current data = { chain := none, transition := false }) :
    f.sendEvent event data
      = some (f, [], some { Event := event, Source := t.Source, Target := t.Target }) := by
  simp [FSM.sendEvent, FSM.Current, hm, ha, heff]

theorem doTransition_eq (f1 : FSM D) (current : State) (t : Transition D)
    (hT : ¬(t.Target == "") = true) :
    f1.doTransition current t = some ({ f1 with current := t.Target },
      (if f1.exitStates.contains current then [CbCall.exitState current] else []) ++
      (if f1.exit then [CbCall.exitGlobal current] else []) ++
      ([CbCall.setCur t.Target] ++
       ((if f1.enterStates.contains t.Target then [CbCall.enterState t.Target] else []) ++
        (if f1.enter then [CbCall.enterGlobal t.Target] else []) ++
        (if f1.transition then [CbCall.transitionCall current t.Target] else []))),
      none) := by
  simp [FSM.doTransition, FSM.SetCurrent, hT, List.append_assoc]

/-! ## C4: unmatched event leaves the machine unchanged -/

/-- C4: when no transition of the table has the current state as source and
the given non-empty event, `SendEvent` returns the no-transition error (the
given event, empty source and target), fires no callback, and leaves the
current state, the transition table and every callback registration
unchanged (only the transient chained-event slot is cleared). -/
theorem sendEvent_no_transition_frame (n : Nat) (f : FSM D) (event : Event)
    (data : Option D) (hE : event ≠ "")
    (hAll : f.transitions.all (fun t => !(t.Source == f.current && t.Event == event)) = true) :
    ∃ f1, f.SendEvent (n + 1) event data
        = some (RunResult.done f1 []
            (some { Event := event, Source := "", Target := "" })) ∧
      f1.current = f.current ∧ f1.transitions = f.transitions ∧
      f1.exit = f.exit ∧ f1.enter = f.enter ∧ f1.transition = f.transition ∧
      f1.exitStates = f.exitStates ∧ f1.enterStates = f.enterStates := by
  have hnone : findMatch (f.SetEvent "" none).transitions
      (f.SetEvent "" none).current event = none :=
    findMatch_eq_none_of_all _ _ _ hAll
  have hsend := sendEvent_no_match (f.SetEvent "" none) event data hnone
  refine ⟨f.SetEvent "" none, ?_, rfl, rfl, rfl, rfl, rfl, rfl, rfl⟩
  have hloop : FSM.SendEventLoop (n + 1) f event data
      = some (RunResult.done (f.SetEvent "" none) []
          (some { Event := event, Source := "", Target := "" })) := by
    simp only [FSM.SendEventLoop]
    rw [hsend]
    simp [FSM.SetEvent]
  simp [FSM.SendEvent, beq_empty_eq_false event hE, hloop]

/-- Witness for C4: the freshly created machine has no transition for
`("", "go")`, so `SendEvent` reports no transition and changes nothing. -/
theorem sendEvent_no_transition_frame_witness :
    ∃ f1 : FSM Unit, FSM.SendEvent New 1 "go" none
        = some (RunResult.done f1 []
            (some { Event := "go", Source := "", Target := "" })) ∧
      f1.current = (New (D := Unit)).current ∧
      f1.transitions = (New (D := Unit)).transitions ∧
      f1.exit = (New (D := Unit)).exit ∧ f1.enter = (New (D := Unit)).enter ∧
      f1.transition = (New (D := Unit)).transition ∧
      f1.exitStates = (New (D := Unit)).exitStates ∧
      f1.enterStates = (New (D := Unit)).enterStates :=
  sendEvent_no_transition_frame 0 New "go" none (by decide) rfl

/-! ## C5: a vetoing action suspends the transition -/

/-- C5: when the first matching transition for the non-empty event carries
an action that (without chaining a follow-up event) returns `false`,
`SendEvent` returns the suspended error carrying the event and the matched
transition's source and target, fires no callback, and leaves the current
state, the table and every callback registration unchanged. -/
theorem sendEvent_suspended_frame (n : Nat) (f : FSM D) (event : Event)
    (data : Option D) (t : Transition D) (act : Action D) (hE : event ≠ "")
    (hm : findMatch f.transitions f.current event = some t)
    (ha : t.Action = some act)
    (heff : act f.current data = { chain := none, transition := false }) :
    ∃ f1, f.SendEvent (n + 1) event data
        = some (RunResult.done f1 []
            (some { Event := event, Source := t.Source, Target := t.Target })) ∧
      f1.current = f.current ∧ f1.transitions = f.transitions ∧
      f1.exit = f.exit ∧ f1.enter = f.enter ∧ f1.transition = f.transition ∧
      f1.exitStates = f.exitStates ∧ f1.enterStates = f.enterStates := by
  have hsend := sendEvent_suspended (f.SetEvent "" none) event data t act hm ha heff
  refine ⟨f.SetEvent "" none, ?_, rfl, rfl, rfl, rfl, rfl, rfl, rfl⟩
  have hloop : FSM.SendEventLoop (n + 1) f event data
      = some (RunResult.done (f.SetEvent "" none) []
          (some { Event := event, Source := t.Source, Target := t.Target })) := by
    simp only [FSM.SendEventLoop]
    rw [hsend]
    simp [FSM.SetEvent]
  simp [FSM.SendEvent, beq_empty_eq_false event hE, hloop]

/-- Witness for C5: `suspFSM`'s only transition matches `("A", "go")` and
its action always vetoes, so `SendEvent` suspends and changes nothing. -/
theorem sendEvent_suspended_frame_witness :
    ∃ f1 : FSM Unit, FSM.SendEvent suspFSM 1 "go" none
        = some (RunResult.done f1 []
            (some { Event := "go", Source := "A", Target := "B" })) ∧
      f1.current = suspFSM.current ∧ f1.transitions = suspFSM.transitions ∧
      f1.exit = suspFSM.exit ∧ f1.enter = suspFSM.enter ∧
      f1.transition = suspFSM.transition ∧
      f1.exitStates = suspFSM.exitStates ∧ f1.enterStates = suspFSM.enterStates :=
  sendEvent_suspended_frame 0 suspFSM "go" none
    { Event := "go", Source := "A", Target := "B", Action := some falseAct }
    falseAct (by decide) rfl rfl rfl

/-! ## C6: callback order of a single successful transition -/

/-- C6: on a committed transition (matching rule whose action is absent or
returns `true`, non-empty target), the dispatch step invokes exactly, and
in exactly this order: the per-state exit callback of the old state (if
registered), the global exit callback (if registered), the mutation of the
current state to the target, the per-state enter callback of the new state
(if registered), the global enter callback (if registered), and the global
transition callback with (old, new) (if registered); each at most once, and
an entry is omitted only when unregistered.  `SendEvent` performs exactly
one such dispatch step per chain iteration. -/
theorem sendEvent_callback_order (f : FSM D) (event : Event) (data : Option D)
    (t : Transition D)
    (hm : findMatch f.transitions f.current event = some t)
    (hp : t.Action = none ∨
      ∃ act, t.Action = some act ∧ (act f.current data).transition = true)
    (hT : t.Target ≠ "") :
    ∃ f2, f.sendEvent event data = some (f2,
      (if f.exitStates.contains f.current then [CbCall.exitState f.current] else []) ++
      (if f.exit then [CbCall.exitGlobal f.current] else []) ++
      ([CbCall.setCur t.Target] ++
       ((if f.enterStates.contains t.Target then [CbCall.enterState t.Target] else []) ++
        (if f.enter then [CbCall.enterGlobal t.Target] else []) ++
        (if f.transition then [CbCall.transitionCall f.current t.Target] else []))),
      none) ∧ f2.current = t.Target := by
  have hT' : ¬(t.Target == "") = true := fun hh => hT (by simpa [beq_iff_eq] using hh)
  rcases hp with hA | ⟨act, hA, htr⟩
  · refine ⟨{ f with current := t.Target }, ?_, rfl⟩
    simp [FSM.sendEvent, FSM.Current, hm, hA, doTransition_eq f f.current t hT']
  · cases hch : (act f.current data).chain with
    | none =>
      refine ⟨{ f with current := t.Target }, ?_, rfl⟩
      simp [FSM.sendEvent, FSM.Current, hm, hA, hch, htr,
        doTransition_eq f f.current t hT']
    | some p =>
      refine ⟨{ f.SetEvent p.1 p.2 with current := t.Target }, ?_, rfl⟩
      have hstep : f.sendEvent event data
          = (f.SetEvent p.1 p.2).doTransition f.current t := by
        simp [FSM.sendEvent, FSM.Current, hm, hA, hch, htr]
      rw [hstep, doTransition_eq (f.SetEvent p.1 p.2) f.current t hT']
      simp [FSM.SetEvent, List.append_assoc]

/-- Witness for C6: `cbFSM` has every callback registered; dispatching
`"go"` from `"A"` fires all five in the specified order around the state
mutation. -/
theorem sendEvent_callback_order_witness :
    ∃ f2 : FSM Unit, FSM.sendEvent cbFSM "go" none = some (f2,
      (if cbFSM.exitStates.contains cbFSM.current then [CbCall.exitState cbFSM.current] else []) ++
      (if cbFSM.exit then [CbCall.exitGlobal cbFSM.current] else []) ++
      ([CbCall.setCur "B"] ++
       ((if cbFSM.enterStates.contains "B" then [CbCall.enterState "B"] else []) ++
        (if cbFSM.enter then [CbCall.enterGlobal "B"] else []) ++
        (if cbFSM.transition then [CbCall.transitionCall cbFSM.current "B"] else []))),
      none) ∧ f2.current = "B" :=
  sendEvent_callback_order cbFSM "go" none
    { Event := "go", Source := "A", Target := "B", Action := none }
    rfl (Or.inl rfl) (by decide)

/-! ## C7: the chained-event loop -/

theorem sendEventLoop_clear (n : Nat) (f : FSM D) (e : Event) (d : Option D) :
    FSM.SendEventLoop n (f.SetEvent "" none) e d = FSM.SendEventLoop n f e d := by
  cases n with
  | zero => rfl
  | succ n => rfl

/-- C7: the chain loop of `SendEvent`.  (i) The pending chained-event slot
is cleared at the start of every iteration, so a stale chained event stored
in the machine never influences the call.  (ii) If the dispatch of the
current event leaves no chained event pending, or produced a non-suspended
error, `SendEvent` returns exactly that iteration's machine, callback trace
and error.  (iii) If the dispatch left a chained event pending (having
succeeded or suspended), the same `SendEvent` call goes on to process the
chained event — producing that dispatch's own full callback sequence,
appended after the current iteration's — and the value returned is exactly
the result of the last iteration processed. -/
theorem sendEvent_chain_loop (n : Nat) (f : FSM D) (e : Event) (d : Option D)
    (f1 : FSM D) (tr : List CbCall) (err : Option TransitionError)
    (hE : e ≠ "")
    (hsend : (f.SetEvent "" none).sendEvent e d = some (f1, tr, err)) :
    (f.SendEvent (n + 1) e d = (f.SetEvent "" none).SendEvent (n + 1) e d) ∧
    ((f1.event = "" ∨ (err.isSome = true ∧ IsSuspended err = false)) →
      f.SendEvent (n + 1) e d = some (RunResult.done f1 tr err)) ∧
    (f1.event ≠ "" → (err = none ∨ IsSuspended err = true) →
      f.SendEvent (n + 1) e d
        = Option.map (RunResult.prependTrace tr)
            (FSM.SendEventLoop n f1 f1.event f1.data)) := by
  have hbe := beq_empty_eq_false e hE
  refine ⟨?_, ?_, ?_⟩
  · simp only [FSM.SendEvent, sendEventLoop_clear]
  · intro hbreak
    have hcond : (f1.event == "" || (err.isSome && !(IsSuspended err))) = true := by
      rcases hbreak with h1 | ⟨h2, h3⟩
      · simp [h1]
      · simp [h2, h3]
    simp [FSM.SendEvent, hbe]
    simp only [FSM.SendEventLoop]
    rw [hsend]
    simp [hcond]
  · intro hev herr
    have hcond : (f1.event == "" || (err.isSome && !(IsSuspended err))) = false := by
      have h1 := beq_empty_eq_false f1.event hev
      rcases herr with h2 | h2
      · simp [h1, h2]
      · simp [h1, h2]
    simp [FSM.SendEvent, hbe]
    simp only [FSM.SendEventLoop]
    rw [hsend]
    simp [hcond]

/-- Witness for C7: on `chainFSM`, dispatching `"Foo"` from state `"Bar"`
succeeds and chains `"Bar"`, so the same call continues with the chained
event and the first iteration's trace prepended. -/
theorem sendEvent_chain_loop_witness :
    (chainFSM.SendEvent 2 "Foo" none = (chainFSM.SetEvent "" none).SendEvent 2 "Foo" none) ∧
    ((chainFSM2.event = "" ∨
        ((none : Option TransitionError).isSome = true ∧
          IsSuspended (none : Option TransitionError) = false)) →
      chainFSM.SendEvent 2 "Foo" none
        = some (RunResult.done chainFSM2 [CbCall.setCur "Foo"] none)) ∧
    (chainFSM2.event ≠ "" →
      ((none : Option TransitionError) = none ∨
        IsSuspended (none : Option TransitionError) = true) →
      chainFSM.SendEvent 2 "Foo" none
        = Option.map (RunResult.prependTrace [CbCall.setCur "Foo"])
            (FSM.SendEventLoop 1 chainFSM2 chainFSM2.event chainFSM2.data)) :=
  sendEvent_chain_loop 1 chainFSM "Foo" none chainFSM2 [CbCall.setCur "Foo"] none
    (by decide) rfl

/-! ## C8: boundedness of SendEvent -/

theorem doTransition_components (f1 : FSM D) (current : State) (t : Transition D)
    (f2 : FSM D) (tr : List CbCall) (err : Option TransitionError)
    (h : f1.doTransition current t = some (f2, tr, err)) :
    f2.event = f1.event ∧ err = none := by
  cases htb : (t.Target == "") with
  | true =>
    have hnone : f1.doTransition current t = none := by
      simp [FSM.doTransition, FSM.SetCurrent, htb]
    rw [hnone] at h
    cases h
  | false =>
    have hT' : ¬(t.Target == "") = true := by simp [htb]
    rw [doTransition_eq f1 current t hT'] at h
    have h' := Option.some.inj h
    simp only [Prod.mk.injEq] at h'
    refine ⟨?_, h'.2.2.symm⟩
    rw [← h'.1]

theorem sendEvent_event_cleared (f : FSM D) (event : Event) (data : Option D)
    (h : ∀ t ∈ f.transitions, ∀ act : Action D, t.Action = some act →
      ∀ s d, (act s d).chain = none) :
    ∀ f1 tr err, (f.SetEvent "" none).sendEvent event data = some (f1, tr, err) →
      f1.event = "" := by
  intro f1 tr err hs
  cases hm : findMatch f.transitions f.current event with
  | none =>
    rw [sendEvent_no_match (f.SetEvent "" none) event data hm] at hs
    have h' := Option.some.inj hs
    simp only [Prod.mk.injEq] at h'
    rw [← h'.1]
    rfl
  | some t =>
    have hm0 : findMatch (f.SetEvent "" none).transitions
        (f.SetEvent "" none).current event = some t := hm
    have htmem : t ∈ f.transitions := (findMatch_mem f.transitions f.current event t hm).1
    cases hA : t.Action with
    | none =>
      have hstep : (f.SetEvent "" none).sendEvent event data
          = (f.SetEvent "" none).doTransition (f.SetEvent "" none).current t := by
        simp [FSM.sendEvent, FSM.Current, hm0, hA]
      rw [hstep] at hs
      exact (doTransition_components _ _ _ _ _ _ hs).1
    | some act =>
      have hch0 : (act (f.SetEvent "" none).current data).chain = none :=
        h t htmem act hA f.current data
      cases htr : (act f.current data).transition with
      | false =>
        have htr0 : (act (f.SetEvent "" none).current data).transition = false := htr
        have hstep : (f.SetEvent "" none).sendEvent event data
            = some (f.SetEvent "" none, [],
                some { Event := event, Source := t.Source, Target := t.Target }) := by
          simp [FSM.sendEvent, FSM.Current, hm0, hA, hch0, htr0]
        rw [hstep] at hs
        have h' := Option.some.inj hs
        simp only [Prod.mk.injEq] at h'
        rw [← h'.1]
        rfl
      | true =>
        have htr0 : (act (f.SetEvent "" none).current data).transition = true := htr
        have hstep : (f.SetEvent "" none).sendEvent event data
            = (f.SetEvent "" none).doTransition (f.SetEvent "" none).current t := by
          simp [FSM.sendEvent, FSM.Current, hm0, hA, hch0, htr0]
        rw [hstep] at hs
        exact (doTransition_components _ _ _ _ _ _ hs).1

theorem loopFSM_sendEvent_step (f : FSM Unit)
    (ht : f.transitions = loopFSM.transitions) (hc : f.current = "A") :
    ∃ tr, (f.SetEvent "" none).sendEvent "e" none
      = some ({ f.SetEvent "e" none with current := "A" }, tr, none) := by
  have hm : findMatch f.transitions f.current "e"
      = some { Event := "e", Source := "A", Target := "A", Action := some selfChainAct } := by
    rw [ht, hc]
    rfl
  have hstep : (f.SetEvent "" none).sendEvent "e" none
      = (f.SetEvent "e" none).doTransition f.current
          { Event := "e", Source := "A", Target := "A", Action := some selfChainAct } := by
    simp [FSM.sendEvent, FSM.Current, hm, selfChainAct, FSM.SetEvent]
  rw [hstep, doTransition_eq (f.SetEvent "e" none) f.current
    { Event := "e", Source := "A", Target := "A", Action := some selfChainAct } (by decide)]
  exact ⟨_, rfl⟩

theorem loopFSM_sendEventLoop_none (n : Nat) :
    ∀ f : FSM Unit, f.transitions = loopFSM.transitions → f.current = "A" →
      FSM.SendEventLoop n f "e" none = none := by
  induction n with
  | zero => intro f _ _; rfl
  | succ n ih =>
    intro f ht hc
    obtain ⟨tr, hsend⟩ := loopFSM_sendEvent_step f ht hc
    simp only [FSM.SendEventLoop]
    rw [hsend]
    simp [FSM.SetEvent]
    exact ih _ ht rfl

/-- C8 counterexample: on `loopFSM` — a machine whose matching action
always re-chains the same event — `SendEvent` never returns, whatever the
iteration bound: the chain loop runs forever, so the claim that every
`SendEvent` call is a bounded computation for every choice of actions is
false on the code. -/
theorem sendEvent_unbounded_counterexample :
    ¬ ∃ (n : Nat) (r : RunResult Unit), loopFSM.SendEvent n "e" none = some r := by
  rintro ⟨n, r, h⟩
  have hb : (("e" : String) == "") = false := by decide
  simp only [FSM.SendEvent, hb] at h
  rw [loopFSM_sendEventLoop_none n loopFSM rfl rfl] at h
  cases h

/-- C8 (amended): `SendEvent` is a bounded computation whenever the
machine's actions do not chain events: if no action stored in the table
ever calls the chaining primitive, the chain loop exits after its first
iteration — any fuel beyond one yields the same, defined outcome.  (The
unrestricted claim is refuted by the self-chaining counterexample.) -/
theorem sendEvent_terminates_without_chaining (n : Nat) (f : FSM D)
    (event : Event) (data : Option D)
    (h : ∀ t ∈ f.transitions, ∀ act : Action D, t.Action = some act →
      ∀ s d, (act s d).chain = none) :
    f.SendEvent (n + 1) event data = f.SendEvent 1 event data ∧
    (f.SendEvent 1 event data).isSome = true := by
  cases hbe : (event == "") with
  | true =>
    constructor
    · simp [FSM.SendEvent, hbe]
    · simp [FSM.SendEvent, hbe]
  | false =>
    have key := sendEvent_event_cleared f event data h
    constructor
    · simp only [FSM.SendEvent, hbe]
      simp only [FSM.SendEventLoop]
      cases hs : (f.SetEvent "" none).sendEvent event data with
      | none => rfl
      | some res =>
        obtain ⟨f1, tr, err⟩ := res
        have hev : f1.event = "" := key f1 tr err hs
        have hcond : (f1.event == "" || (err.isSome && !(IsSuspended err))) = true := by
          simp [hev]
        simp [hcond]
    · simp only [FSM.SendEvent, hbe]
      simp only [FSM.SendEventLoop]
      cases hs : (f.SetEvent "" none).sendEvent event data with
      | none => rfl
      | some res =>
        obtain ⟨f1, tr, err⟩ := res
        have hev : f1.event = "" := key f1 tr err hs
        have hcond : (f1.event == "" || (err.isSome && !(IsSuspended err))) = true := by
          simp [hev]
        simp [hcond]

/-- Witness for C8 (amended): `noChainFSM` has a single action-free
transition, so `SendEvent` with any fuel equals the single-iteration run
and that run is defined. -/
theorem sendEvent_terminates_without_chaining_witness :
    noChainFSM.SendEvent 4 "go" none = noChainFSM.SendEvent 1 "go" none ∧
    (noChainFSM.SendEvent 1 "go" none).isSome = true :=
  sendEvent_terminates_without_chaining 3 noChainFSM "go" none
    (by
      intro t htm act hact s d
      have ht1 : t = trNC := by simpa [noChainFSM, New] using htm
      rw [ht1] at hact
      simp [trNC] at hact)

end Fsm
